import Mathlib

/-!
Verification of the blackjack game core in `src/blackjack-game/src/app/page.tsx`:
the card and hand model (`getCardValue`, `calculateHandValue`), and the round
logic (`startGame`, `hit`, `stand`, `dealerPlay`, `determineWinner`, `endGame`,
`resetGame`, `buyChips`) of the `BlackjackGame` component.

Randomness and presentation timing are abstracted: functions that draw a random
card in the source (`getRandomCard`) take the drawn card (or a stream of cards)
as an explicit argument here, and the `setTimeout`-staggered state updates are
collapsed to their final synchronous effect, as the spec's design notes direct.
-/

/-- Card suits, from `type Suit` in page.tsx. -/
inductive Suit where
  | spade | heart | diamond | club
deriving DecidableEq, Repr

/-- Card ranks, from `type Rank` in page.tsx. -/
inductive Rank where
  | A | r2 | r3 | r4 | r5 | r6 | r7 | r8 | r9 | r10 | J | Q | K
deriving DecidableEq, Repr

/-- A playing card, from `interface PlayingCard` in page.tsx.  The `id` field
is an opaque presentation token, never consulted by scoring. -/
structure PlayingCard where
  suit : Suit
  rank : Rank
  id : String
deriving DecidableEq, Repr

/-- `getCardValue` from page.tsx lines 42-46: ace is 11, J/Q/K are 10, a
numeric rank is its face value (the source's `parseInt(card.rank)`). -/
def getCardValue (card : PlayingCard) : Nat :=
  if card.rank = Rank.A then 11
  else if card.rank = Rank.J ∨ card.rank = Rank.Q ∨ card.rank = Rank.K then 10
  else match card.rank with
    | Rank.r2 => 2 | Rank.r3 => 3 | Rank.r4 => 4 | Rank.r5 => 5 | Rank.r6 => 6
    | Rank.r7 => 7 | Rank.r8 => 8 | Rank.r9 => 9 | Rank.r10 => 10
    | _ => 0

/-- The `while (value > 21 && aces > 0) { value -= 10; aces -= 1 }` loop of
`calculateHandValue` (page.tsx lines 61-64), recursion on the ace count. -/
def adjustAces : Nat → Nat → Nat
  | value, 0 => value
  | value, aces + 1 => if value > 21 then adjustAces (value - 10) aces else value

/-- `calculateHandValue` from page.tsx lines 48-67: a fold accumulating
`(value, aces)` over the hand (the source's `forEach`), then the ace-demotion
while loop. -/
def calculateHandValue (hand : List PlayingCard) : Nat :=
  let acc := hand.foldl
    (fun (p : Nat × Nat) card =>
      if card.rank = Rank.A then (p.1 + 11, p.2 + 1)
      else (p.1 + getCardValue card, p.2))
    (0, 0)
  adjustAces acc.1 acc.2

/-! ### Specification-side restatement of the hand-value algorithm (for C1) -/

/-- Modelled from the spec: the pip value of a rank, "ace = 11, J/Q/K = 10,
numeric ranks = face value". -/
def specPipValue : Rank → Nat
  | Rank.A => 11
  | Rank.J => 10 | Rank.Q => 10 | Rank.K => 10
  | Rank.r2 => 2 | Rank.r3 => 3 | Rank.r4 => 4 | Rank.r5 => 5 | Rank.r6 => 6
  | Rank.r7 => 7 | Rank.r8 => 8 | Rank.r9 => 9 | Rank.r10 => 10

/-- Modelled from the spec: "one ace's contribution reduced from 11 to 1
repeatedly while the total exceeds 21 and an ace counted as 11 remains";
`aces` counts the aces still counted as 11. -/
def specDemote (total : Nat) (aces : Nat) : Nat :=
  match aces with
  | 0 => total
  | a + 1 => if 21 < total then specDemote (total - 10) a else total

/-- Modelled from the spec: hand value is the sum of pip values followed by
repeated demotion of aces counted as 11. -/
def specHandValue (hand : List PlayingCard) : Nat :=
  specDemote ((hand.map (fun c => specPipValue c.rank)).sum)
    (hand.countP (fun c => c.rank = Rank.A))

/-! ### Helper lemmas about `calculateHandValue` -/

/-- Sum of raw pip values of a hand (every ace counted as 11). -/
def sumPips (hand : List PlayingCard) : Nat :=
  (hand.map getCardValue).sum

/-- Number of aces in a hand. -/
def countAces (hand : List PlayingCard) : Nat :=
  hand.countP (fun c => c.rank = Rank.A)

theorem getCardValue_eq_specPipValue (c : PlayingCard) :
    getCardValue c = specPipValue c.rank := by
  cases h : c.rank <;> simp [getCardValue, specPipValue, h]

theorem getCardValue_of_ace (c : PlayingCard) (h : c.rank = Rank.A) :
    getCardValue c = 11 := by
  simp [getCardValue, h]

theorem sumPips_cons (c : PlayingCard) (rest : List PlayingCard) :
    sumPips (c :: rest) = getCardValue c + sumPips rest := by
  simp [sumPips]

theorem countAces_cons (c : PlayingCard) (rest : List PlayingCard) :
    countAces (c :: rest) =
      countAces rest + (if c.rank = Rank.A then 1 else 0) := by
  by_cases h : c.rank = Rank.A <;> simp [countAces, h]

theorem calculateHandValue_foldl (hand : List PlayingCard) :
    ∀ v a, hand.foldl
      (fun (p : Nat × Nat) card =>
        if card.rank = Rank.A then (p.1 + 11, p.2 + 1)
        else (p.1 + getCardValue card, p.2)) (v, a)
      = (v + sumPips hand, a + countAces hand) := by
  induction hand with
  | nil => intro v a; simp [sumPips, countAces]
  | cons c rest ih =>
    intro v a
    simp only [List.foldl_cons]
    by_cases h : c.rank = Rank.A
    · rw [if_pos h, ih]
      have hv := getCardValue_of_ace c h
      rw [Prod.ext_iff]
      rw [sumPips_cons, countAces_cons, if_pos h]
      constructor <;> simp <;> omega
    · rw [if_neg h, ih]
      rw [Prod.ext_iff]
      rw [sumPips_cons, countAces_cons, if_neg h]
      constructor <;> simp <;> omega

theorem calculateHandValue_eq (hand : List PlayingCard) :
    calculateHandValue hand = adjustAces (sumPips hand) (countAces hand) := by
  simp only [calculateHandValue]
  rw [calculateHandValue_foldl hand 0 0]
  simp

theorem adjustAces_eq_specDemote (a : Nat) : ∀ v, adjustAces v a = specDemote v a := by
  induction a with
  | zero => intro v; rfl
  | succ a ih =>
    intro v
    simp only [adjustAces, specDemote]
    by_cases h : v > 21
    · rw [if_pos h, if_pos h, ih]
    · rw [if_neg h, if_neg (by omega)]

theorem calculateHandValue_eq_spec (hand : List PlayingCard) :
    calculateHandValue hand = specHandValue hand := by
  rw [calculateHandValue_eq, adjustAces_eq_specDemote, specHandValue]
  congr 1
  · unfold sumPips
    congr 1
    exact List.map_congr_left (fun c _ => getCardValue_eq_specPipValue c)

/-! ### Lower bounds on hand values, for dealer-loop termination -/

/-- Minimum possible contribution of a card: an ace demoted to 1, every other
card its fixed pip value. -/
def minCardValue (c : PlayingCard) : Nat :=
  if c.rank = Rank.A then 1 else getCardValue c

/-- Minimum possible hand total: every ace counted as 1. -/
def minTotal (hand : List PlayingCard) : Nat :=
  (hand.map minCardValue).sum

theorem one_le_minCardValue (c : PlayingCard) : 1 ≤ minCardValue c := by
  cases h : c.rank <;> simp [minCardValue, getCardValue, h]

theorem minTotal_append_single (hand : List PlayingCard) (c : PlayingCard) :
    minTotal (hand ++ [c]) = minTotal hand + minCardValue c := by
  simp [minTotal]

theorem sumPips_eq_minTotal_add (hand : List PlayingCard) :
    sumPips hand = minTotal hand + 10 * countAces hand := by
  induction hand with
  | nil => simp [sumPips, minTotal, countAces]
  | cons c rest ih =>
    rw [sumPips_cons, countAces_cons, ih]
    have hm : minTotal (c :: rest) = minCardValue c + minTotal rest := by
      simp [minTotal]
    rw [hm]
    by_cases h : c.rank = Rank.A
    · rw [if_pos h, getCardValue_of_ace c h]
      simp [minCardValue, h]; ring
    · rw [if_neg h]
      simp [minCardValue, h]; ring

theorem adjustAces_ge (a : Nat) : ∀ v, v - 10 * a ≤ adjustAces v a := by
  induction a with
  | zero => intro v; simp [adjustAces]
  | succ a ih =>
    intro v
    simp only [adjustAces]
    by_cases h : v > 21
    · rw [if_pos h]
      have := ih (v - 10)
      omega
    · rw [if_neg h]; omega

/-- A hand's computed value is at least its all-aces-as-1 total. -/
theorem minTotal_le_calculateHandValue (hand : List PlayingCard) :
    minTotal hand ≤ calculateHandValue hand := by
  rw [calculateHandValue_eq]
  have h1 := adjustAces_ge (countAces hand) (sumPips hand)
  have h2 := sumPips_eq_minTotal_add hand
  omega

/-! ### Dealer automation (C2) -/

/-- `dealerPlay`'s inner `dealCard` loop from page.tsx lines 214-237: while the
dealer hand's value is below 17, append the next drawn card.  The source draws
via `getRandomCard()`; here `draw` is the stream of drawn cards and `i` the
index of the next draw.  Terminates because every card adds at least 1 to the
hand's minimum total, which the value bounds from below. -/
def dealCard (draw : Nat → PlayingCard) (i : Nat) (hand : List PlayingCard) :
    List PlayingCard :=
  if calculateHandValue hand < 17 then
    dealCard draw (i + 1) (hand ++ [draw i])
  else hand
termination_by 17 - minTotal hand
decreasing_by
  have h1 := minTotal_le_calculateHandValue hand
  have h2 := minTotal_append_single hand (draw i)
  have h3 := one_le_minCardValue (draw i)
  omega

theorem dealCard_ge_17 (draw : Nat → PlayingCard) (i : Nat)
    (hand : List PlayingCard) :
    17 ≤ calculateHandValue (dealCard draw i hand) := by
  rw [dealCard.eq_def]
  split
  · exact dealCard_ge_17 draw (i + 1) (hand ++ [draw i])
  · omega
termination_by 17 - minTotal hand
decreasing_by
  have h1 := minTotal_le_calculateHandValue hand
  have h2 := minTotal_append_single hand (draw i)
  have h3 := one_le_minCardValue (draw i)
  omega

/-! ### Round state machine -/

/-- The component's `gameState` values from page.tsx line 78. -/
inductive Phase where
  | betting | playing | dealer | ended
deriving DecidableEq, Repr

/-- Round results, from the `'win' | 'loss' | 'push'` union in page.tsx. -/
inductive GResult where
  | win | loss | push
deriving DecidableEq, Repr

/-- The spec's error taxonomy.  In the source an `InvalidBet` is the early
return of `startGame` (page.tsx lines 130-133), and an `InvalidAction` is an
action whose button the component does not render in the current `gameState`
(hit/stand exist only under `gameState === 'playing'`, line 652; Deal only
under `'betting'`, line 577). -/
inductive GameError where
  | InvalidBet | InvalidAction
deriving DecidableEq, Repr

/-- A saved game record: the fields of the history entries built in
`startGame`, `determineWinner` and `endGame` that the game logic determines
(`id`, `user_id` and `created_at` are external bookkeeping). -/
structure HistEntry where
  player_hand : List PlayingCard
  dealer_hand : List PlayingCard
  result : GResult
  bet : Int
deriving DecidableEq, Repr

/-- The game-relevant component state of `BlackjackGame`: the `chips`, `bet`,
`playerHand`, `dealerHand`, `gameState` and `history` React states. -/
structure GameState where
  chips : Int
  bet : Int
  playerHand : List PlayingCard
  dealerHand : List PlayingCard
  phase : Phase
  history : List HistEntry
deriving DecidableEq, Repr

/-- `startGame` from page.tsx lines 129-191.  The three drawn cards are the
arguments `card1`, `card2`, `dealerCard`; the staggered `setTimeout` deals are
collapsed to their final effect.  On the early returns (invalid bet, or the
Deal button not being available outside the betting phase) the state is
returned unchanged together with the error. -/
def startGame (s : GameState) (card1 card2 dealerCard : PlayingCard) :
    GameState × Option GameError :=
  if s.phase ≠ Phase.betting then (s, some GameError.InvalidAction)
  else if s.bet ≤ 0 ∨ s.bet > s.chips then (s, some GameError.InvalidBet)
  else
    let playerValue := calculateHandValue [card1, card2]
    if playerValue = 21 then
      let winAmount := Int.fdiv (s.bet * 3) 2
      ({ s with
          playerHand := [card1, card2]
          dealerHand := [dealerCard]
          phase := Phase.ended
          chips := s.chips + winAmount
          history := { player_hand := [card1, card2]
                       dealer_hand := [dealerCard]
                       result := GResult.win
                       bet := s.bet } :: s.history },
        none)
    else
      ({ s with
          playerHand := [card1, card2]
          dealerHand := [dealerCard]
          phase := Phase.playing },
        none)

/-- `endGame('loss')` from page.tsx lines 282-301: deduct the bet, end the
round, and prepend the loss to history.  Called only from `hit` on bust,
through a `setTimeout` whose closure captured the render's bindings, so the
`playerHand` it reads is the state as it was when `hit` ran. -/
def endGame (s : GameState) : GameState :=
  { s with
      chips := s.chips - s.bet
      phase := Phase.ended
      history := { player_hand := s.playerHand
                   dealer_hand := s.dealerHand
                   result := GResult.loss
                   bet := s.bet } :: s.history }

/-- `hit` from page.tsx lines 193-206: append one drawn card to the player
hand; on bust (> 21) run `endGame('loss')`, otherwise stay in the player turn.
On bust, `setPlayerHand(newHand)` has updated the displayed player hand, but
the `endGame` invoked from the `setTimeout` at line 204 is the closure of the
render in which `hit` ran, whose `playerHand` binding is still the pre-hit
hand: the history entry it records therefore omits the busting card.  This is
modelled by applying `endGame` to the pre-hit state and then overwriting only
the `playerHand` field with the new hand.  Outside the playing phase the Hit
button is not rendered, so the action is rejected unchanged. -/
def hit (s : GameState) (newCard : PlayingCard) :
    GameState × Option GameError :=
  if s.phase ≠ Phase.playing then (s, some GameError.InvalidAction)
  else
    let newHand := s.playerHand ++ [newCard]
    let value := calculateHandValue newHand
    if value > 21 then ({ endGame s with playerHand := newHand }, none)
    else ({ s with playerHand := newHand }, none)

/-- `determineWinner` from page.tsx lines 239-280: compare the player hand
against the final dealer hand, settle the chips, end the round, and prepend
the outcome to history. -/
def determineWinner (s : GameState) (finalDealerHand : List PlayingCard) :
    GameState :=
  let playerValue := calculateHandValue s.playerHand
  let dealerValue := calculateHandValue finalDealerHand
  let result :=
    if dealerValue > 21 then GResult.win
    else if playerValue > dealerValue then GResult.win
    else if playerValue < dealerValue then GResult.loss
    else GResult.push
  let newChips :=
    if dealerValue > 21 then s.chips + s.bet
    else if playerValue > dealerValue then s.chips + s.bet
    else if playerValue < dealerValue then s.chips - s.bet
    else s.chips
  { s with
      chips := newChips
      phase := Phase.ended
      history := { player_hand := s.playerHand
                   dealer_hand := finalDealerHand
                   result := result
                   bet := s.bet } :: s.history }

/-- `stand` from page.tsx lines 208-212 together with `dealerPlay` (lines
214-237): run the dealer draw loop to completion on the current dealer hand,
then `determineWinner` on the final dealer hand.  Outside the playing phase
the Stand button is not rendered, so the action is rejected unchanged. -/
def stand (s : GameState) (draw : Nat → PlayingCard) :
    GameState × Option GameError :=
  if s.phase ≠ Phase.playing then (s, some GameError.InvalidAction)
  else
    let finalDealerHand := dealCard draw 0 s.dealerHand
    (determineWinner { s with dealerHand := finalDealerHand } finalDealerHand,
      none)

/-- `resetGame` from page.tsx lines 304-310. -/
def resetGame (s : GameState) : GameState :=
  { s with playerHand := [], dealerHand := [], phase := Phase.betting }

/-- `buyChips` from page.tsx lines 312-317: unconditionally add 500 chips. -/
def buyChips (s : GameState) : GameState :=
  { s with chips := s.chips + 500 }

/-! ### Concrete cards and states used in examples and witnesses -/

def cAS : PlayingCard := { suit := Suit.spade, rank := Rank.A, id := "as" }
def cAH : PlayingCard := { suit := Suit.heart, rank := Rank.A, id := "ah" }
def cKS : PlayingCard := { suit := Suit.spade, rank := Rank.K, id := "ks" }
def cQS : PlayingCard := { suit := Suit.spade, rank := Rank.Q, id := "qs" }
def c10S : PlayingCard := { suit := Suit.spade, rank := Rank.r10, id := "10s" }
def c9S : PlayingCard := { suit := Suit.spade, rank := Rank.r9, id := "9s" }
def c9H : PlayingCard := { suit := Suit.heart, rank := Rank.r9, id := "9h" }
def c5S : PlayingCard := { suit := Suit.spade, rank := Rank.r5, id := "5s" }
def c5H : PlayingCard := { suit := Suit.heart, rank := Rank.r5, id := "5h" }
def c2S : PlayingCard := { suit := Suit.spade, rank := Rank.r2, id := "2s" }

/-! ### Claims -/

/-- C1: `calculateHandValue` returns the sum of pip values (ace = 11,
J/Q/K = 10, numeric ranks = face value) with one ace's contribution demoted
from 11 to 1 while the total exceeds 21 and an ace counted as 11 remains; the
empty hand evaluates to 0, `[A,9]` to 20, `[A,A]` to 12, `[A,A,9]` to 21 and
`[10,9,5]` to 24. -/
theorem C1_hand_value_correct :
    (∀ hand, calculateHandValue hand = specHandValue hand) ∧
    calculateHandValue [] = 0 ∧
    calculateHandValue [cAS, c9S] = 20 ∧
    calculateHandValue [cAS, cAH] = 12 ∧
    calculateHandValue [cAS, cAH, c9S] = 21 ∧
    calculateHandValue [c10S, c9S, c5S] = 24 :=
  ⟨calculateHandValue_eq_spec, rfl, by decide, by decide, by decide, by decide⟩

/-- C2: the dealer loop always terminates (`dealCard` is a total function),
its result always has value at least 17, it draws exactly while the value is
strictly below 17 (the unfolding equation), and `stand` runs it from the
current dealer hand whenever it acts. -/
theorem C2_dealer_loop :
    ∀ (draw : Nat → PlayingCard) (i : Nat) (hand : List PlayingCard)
      (s : GameState),
      17 ≤ calculateHandValue (dealCard draw i hand) ∧
      dealCard draw i hand =
        (if calculateHandValue hand < 17
          then dealCard draw (i + 1) (hand ++ [draw i])
          else hand) ∧
      (stand s draw).1.dealerHand =
        (if s.phase = Phase.playing then dealCard draw 0 s.dealerHand
          else s.dealerHand) := by
  intro draw i hand s
  refine ⟨dealCard_ge_17 draw i hand, by rw [dealCard.eq_def], ?_⟩
  by_cases h : s.phase = Phase.playing
  · simp [stand, h, determineWinner]
  · simp [stand, h]

/-- If the dealer busts or the player outscores the dealer, `determineWinner`
pays the bet and records a Win. -/
theorem determineWinner_win (s : GameState) (d : List PlayingCard)
    (h : calculateHandValue d > 21 ∨
      calculateHandValue s.playerHand > calculateHandValue d) :
    (determineWinner s d).chips = s.chips + s.bet ∧
    (determineWinner s d).history.head? =
      some { player_hand := s.playerHand, dealer_hand := d,
             result := GResult.win, bet := s.bet } := by
  simp only [determineWinner]
  split_ifs with h1 h2 h3
  · exact ⟨rfl, rfl⟩
  · exact ⟨rfl, rfl⟩
  · rcases h with h | h <;> omega
  · rcases h with h | h <;> omega

/-- A non-busting `hit` during the player turn only appends the drawn card. -/
theorem hit_no_bust (s : GameState) (c : PlayingCard)
    (hp : s.phase = Phase.playing)
    (hv : calculateHandValue (s.playerHand ++ [c]) ≤ 21) :
    hit s c = ({ s with playerHand := s.playerHand ++ [c] }, none) := by
  simp only [hit, hp]
  rw [if_neg (by simp), if_neg (by omega)]

/-- C3: after the dealer turn, `determineWinner` pays +bet and records Win
when the dealer busts or the player's value exceeds the dealer's; deducts the
bet and records Loss when the dealer does not bust and the player's value is
below the dealer's; and leaves the chips unchanged recording Push when the
dealer does not bust and the values are equal. -/
theorem C3_payouts (s : GameState) (d : List PlayingCard) :
    (calculateHandValue d > 21 ∨
        calculateHandValue s.playerHand > calculateHandValue d →
      (determineWinner s d).chips = s.chips + s.bet ∧
      (determineWinner s d).history.head? =
        some { player_hand := s.playerHand, dealer_hand := d,
               result := GResult.win, bet := s.bet }) ∧
    (calculateHandValue d ≤ 21 ∧
        calculateHandValue s.playerHand < calculateHandValue d →
      (determineWinner s d).chips = s.chips - s.bet ∧
      (determineWinner s d).history.head? =
        some { player_hand := s.playerHand, dealer_hand := d,
               result := GResult.loss, bet := s.bet }) ∧
    (calculateHandValue d ≤ 21 ∧
        calculateHandValue s.playerHand = calculateHandValue d →
      (determineWinner s d).chips = s.chips ∧
      (determineWinner s d).history.head? =
        some { player_hand := s.playerHand, dealer_hand := d,
               result := GResult.push, bet := s.bet }) := by
  refine ⟨determineWinner_win s d, ?_, ?_⟩
  · intro h
    obtain ⟨ha, hb⟩ := h
    simp only [determineWinner]
    split_ifs with h1 h2
    · omega
    · omega
    · exact ⟨rfl, rfl⟩
  · intro h
    obtain ⟨ha, hb⟩ := h
    simp only [determineWinner]
    split_ifs with h1 h2 h3
    · omega
    · omega
    · omega
    · exact ⟨rfl, rfl⟩

def sTurn : GameState :=
  { chips := 100, bet := 10, playerHand := [c10S, c9S], dealerHand := [cKS],
    phase := Phase.playing, history := [] }

/-- Witness for C3 at concrete inputs: player 19 against a busted dealer 25
(win), a dealer 20 (loss), and a dealer 19 (push). -/
theorem C3_payouts_witness :
    (determineWinner sTurn [cKS, cQS, c5S]).chips = sTurn.chips + sTurn.bet ∧
    (determineWinner sTurn [cKS, cQS]).chips = sTurn.chips - sTurn.bet ∧
    (determineWinner sTurn [cKS, c9H]).chips = sTurn.chips :=
  ⟨((C3_payouts sTurn [cKS, cQS, c5S]).1 (Or.inl (by decide))).1,
   ((C3_payouts sTurn [cKS, cQS]).2.1 ⟨by decide, by decide⟩).1,
   ((C3_payouts sTurn [cKS, c9H]).2.2 ⟨by decide, by decide⟩).1⟩

/-- C4: when the initial two player cards total exactly 21, `startGame`
resolves the round at once as a Win paying `floor(bet * 1.5)`, never entering
the player or dealer turn, with the single dealt dealer card recorded in the
history entry; and a 21 reached later through `hit` gets no bonus: the round
stays in the player turn with the chips untouched. -/
theorem C4_blackjack (s : GameState) (card1 card2 dealerCard : PlayingCard)
    (hp : s.phase = Phase.betting) (hb : 0 < s.bet) (hc : s.bet ≤ s.chips)
    (h21 : calculateHandValue [card1, card2] = 21) :
    startGame s card1 card2 dealerCard =
      ({ s with
          playerHand := [card1, card2]
          dealerHand := [dealerCard]
          phase := Phase.ended
          chips := s.chips + Int.fdiv (s.bet * 3) 2
          history := { player_hand := [card1, card2]
                       dealer_hand := [dealerCard]
                       result := GResult.win
                       bet := s.bet } :: s.history },
        none) ∧
    (∀ (t : GameState) (c : PlayingCard), t.phase = Phase.playing →
      calculateHandValue (t.playerHand ++ [c]) = 21 →
      hit t c = ({ t with playerHand := t.playerHand ++ [c] }, none)) := by
  constructor
  · simp only [startGame, hp]
    rw [if_neg (by simp), if_neg (by omega), if_pos h21]
  · intro t c ht h21t
    simp only [hit, ht]
    rw [if_neg (by simp), if_neg (by omega)]

def sBet : GameState :=
  { chips := 100, bet := 10, playerHand := [], dealerHand := [],
    phase := Phase.betting, history := [] }

/-- Witness for C4: balance 100, bet 10, player dealt [A,K]: immediate Win
with 15 chips gained (chips become 115) and the lone dealer card in history;
and hitting from [10,9] into a three-card 21 leaves the round in the player
turn with chips unchanged. -/
theorem C4_blackjack_witness :
    startGame sBet cAS cKS c5S =
      ({ chips := 115, bet := 10, playerHand := [cAS, cKS],
         dealerHand := [c5S], phase := Phase.ended,
         history := [{ player_hand := [cAS, cKS], dealer_hand := [c5S],
                       result := GResult.win, bet := 10 }] },
        none) ∧
    hit sTurn c2S = ({ sTurn with playerHand := [c10S, c9S, c2S] }, none) := by
  have h := C4_blackjack sBet cAS cKS c5S rfl (by decide) (by decide)
    (by decide)
  exact ⟨h.1, h.2 sTurn c2S rfl (by decide)⟩

/-- C5: a bet that is non-positive or exceeds the balance is rejected with
`InvalidBet`: `startGame` returns the state unchanged (still in the betting
phase, no cards dealt) paired with the error. -/
theorem C5_invalid_bet (s : GameState) (card1 card2 dealerCard : PlayingCard)
    (hp : s.phase = Phase.betting) (hb : s.bet ≤ 0 ∨ s.bet > s.chips) :
    startGame s card1 card2 dealerCard = (s, some GameError.InvalidBet) := by
  simp only [startGame, hp]
  rw [if_neg (by simp), if_pos hb]

def sBet0 : GameState :=
  { chips := 100, bet := 0, playerHand := [], dealerHand := [],
    phase := Phase.betting, history := [] }

def sBet101 : GameState :=
  { chips := 100, bet := 101, playerHand := [], dealerHand := [],
    phase := Phase.betting, history := [] }

/-- Witness for C5: a zero bet and a bet one above the balance are both
rejected with the state unchanged. -/
theorem C5_invalid_bet_witness :
    startGame sBet0 cAS cKS c5S = (sBet0, some GameError.InvalidBet) ∧
    startGame sBet101 cAS cKS c5S = (sBet101, some GameError.InvalidBet) :=
  ⟨C5_invalid_bet sBet0 cAS cKS c5S rfl (Or.inl (by decide)),
   C5_invalid_bet sBet101 cAS cKS c5S rfl (Or.inr (by decide))⟩

/-- C6: during the player turn, `hit` appends exactly the one drawn card; on
bust (value over 21) the round resolves at once as a Loss deducting the bet,
with the dealer hand untouched (no dealer turn) and a loss recorded in
history — the recorded entry holding the pre-hit hand, since the source's
`endGame` closure captured `playerHand` before the hit; otherwise the round
stays in the player turn. -/
theorem C6_hit (s : GameState) (c : PlayingCard)
    (hp : s.phase = Phase.playing) :
    (hit s c).2 = none ∧
    (hit s c).1.playerHand = s.playerHand ++ [c] ∧
    (calculateHandValue (s.playerHand ++ [c]) > 21 →
      hit s c =
        ({ s with
            playerHand := s.playerHand ++ [c]
            chips := s.chips - s.bet
            phase := Phase.ended
            history := { player_hand := s.playerHand
                         dealer_hand := s.dealerHand
                         result := GResult.loss
                         bet := s.bet } :: s.history },
          none)) ∧
    (calculateHandValue (s.playerHand ++ [c]) ≤ 21 →
      hit s c = ({ s with playerHand := s.playerHand ++ [c] }, none)) := by
  simp only [hit, hp]
  rw [if_neg (by simp)]
  by_cases hv : calculateHandValue (s.playerHand ++ [c]) > 21
  · rw [if_pos hv]
    refine ⟨rfl, rfl, fun _ => rfl, fun h => absurd hv (by omega)⟩
  · rw [if_neg hv]
    exact ⟨rfl, rfl, fun h => absurd h hv, fun _ => rfl⟩

/-- Witness for C6: hitting from [10,9] into [10,9,5] (24) during the player
turn resolves the round at once as a Loss of the bet, dealer hand untouched;
the saved history entry holds the stale pre-hit hand [10,9]. -/
theorem C6_hit_witness :
    hit sTurn c5H =
      ({ chips := 90, bet := 10, playerHand := [c10S, c9S, c5H],
         dealerHand := [cKS], phase := Phase.ended,
         history := [{ player_hand := [c10S, c9S], dealer_hand := [cKS],
                       result := GResult.loss, bet := 10 }] },
        none) :=
  (C6_hit sTurn c5H rfl).2.2.1 (by decide)

/-- C7: on a resolved (`ended`) round, both `hit` and `stand` are rejected
with `InvalidAction` and the state — hands, chips, bet, phase, history — is
returned unchanged, so a second `stand` after resolution mutates nothing. -/
theorem C7_resolved_rejects (s : GameState) (c : PlayingCard)
    (draw : Nat → PlayingCard) (hp : s.phase = Phase.ended) :
    hit s c = (s, some GameError.InvalidAction) ∧
    stand s draw = (s, some GameError.InvalidAction) := by
  constructor
  · simp only [hit, hp]
    rw [if_pos (by simp)]
  · simp only [stand, hp]
    rw [if_pos (by simp)]

def sEnded : GameState :=
  { chips := 90, bet := 10, playerHand := [c10S, c9S, c5H],
    dealerHand := [cKS], phase := Phase.ended,
    history := [{ player_hand := [c10S, c9S, c5H], dealer_hand := [cKS],
                  result := GResult.loss, bet := 10 }] }

/-- Witness for C7: on a concrete resolved round both actions are rejected
unchanged. -/
theorem C7_resolved_rejects_witness :
    hit sEnded c2S = (sEnded, some GameError.InvalidAction) ∧
    stand sEnded (fun _ => c5S) = (sEnded, some GameError.InvalidAction) :=
  C7_resolved_rejects sEnded c2S (fun _ => c5S) rfl

def sAnyBetting : GameState :=
  { chips := 100, bet := 10, playerHand := [], dealerHand := [],
    phase := Phase.betting, history := [] }

/-- Counterexample to C8 as stated: `buyChips` changes the balance by +500
with no round resolving — the phase stays `betting` and the history gains no
entry — so the balance is not mutated only by applying a resolved round's
payout delta. -/
theorem C8_counterexample :
    (buyChips sAnyBetting).chips = sAnyBetting.chips + 500 ∧
    (buyChips sAnyBetting).chips ≠ sAnyBetting.chips ∧
    (buyChips sAnyBetting).phase = Phase.betting ∧
    (buyChips sAnyBetting).history = sAnyBetting.history :=
  ⟨rfl, by decide, rfl, rfl⟩

/-- C8 (amended): apart from `buyChips`, which adds 500 chips outside any
round, every operation changes the balance only when it resolves the round
(the phase becomes `ended`), and then by exactly the resolved round's payout
delta: the blackjack bonus `floor(bet * 1.5)` for `startGame`, `-bet` for a
bust on `hit`, and `+bet`, `-bet` or `0` for `stand`; `resetGame` never
touches the balance. -/
theorem C8_balance_frame :
    ∀ (s : GameState) (card1 card2 dealerCard c : PlayingCard)
      (draw : Nat → PlayingCard),
      ((startGame s card1 card2 dealerCard).1.chips = s.chips ∨
        ((startGame s card1 card2 dealerCard).1.phase = Phase.ended ∧
          (startGame s card1 card2 dealerCard).1.chips =
            s.chips + Int.fdiv (s.bet * 3) 2)) ∧
      ((hit s c).1.chips = s.chips ∨
        ((hit s c).1.phase = Phase.ended ∧
          (hit s c).1.chips = s.chips - s.bet)) ∧
      ((stand s draw).1.chips = s.chips ∨
        ((stand s draw).1.phase = Phase.ended ∧
          ((stand s draw).1.chips = s.chips + s.bet ∨
            (stand s draw).1.chips = s.chips - s.bet))) ∧
      (resetGame s).chips = s.chips ∧
      (buyChips s).chips = s.chips + 500 := by
  intro s card1 card2 dealerCard c draw
  refine ⟨?_, ?_, ?_, rfl, rfl⟩
  · simp only [startGame]
    split_ifs
    · exact Or.inl rfl
    · exact Or.inl rfl
    · exact Or.inr ⟨rfl, rfl⟩
    · exact Or.inl rfl
  · simp only [hit, endGame]
    split_ifs
    · exact Or.inl rfl
    · exact Or.inr ⟨rfl, rfl⟩
    · exact Or.inl rfl
  · simp only [stand, determineWinner]
    split_ifs
    · exact Or.inl rfl
    · exact Or.inr ⟨rfl, Or.inl rfl⟩
    · exact Or.inr ⟨rfl, Or.inl rfl⟩
    · exact Or.inr ⟨rfl, Or.inr rfl⟩
    · exact Or.inl rfl

/-- C9: `determineWinner` never re-checks the player for bust: when the
player's value exceeds 21 but the dealer's final value is at most 21 and below
the player's, the outcome is a recorded Win and the balance still increases by
the bet. -/
theorem C9_no_player_bust_check (s : GameState) (d : List PlayingCard)
    (hp : calculateHandValue s.playerHand > 21)
    (hd : calculateHandValue d ≤ 21)
    (hlt : calculateHandValue d < calculateHandValue s.playerHand) :
    (determineWinner s d).chips = s.chips + s.bet ∧
    (determineWinner s d).history.head? =
      some { player_hand := s.playerHand, dealer_hand := d,
             result := GResult.win, bet := s.bet } :=
  determineWinner_win s d (Or.inr hlt)

def sBusted : GameState :=
  { chips := 100, bet := 10, playerHand := [c10S, c9S, c5H],
    dealerHand := [cKS], phase := Phase.dealer, history := [] }

/-- Witness for C9: a busted player 24 against a dealer 19 is still paid as a
Win of the bet. -/
theorem C9_no_player_bust_check_witness :
    (determineWinner sBusted [cKS, c9H]).chips = sBusted.chips + sBusted.bet :=
  (C9_no_player_bust_check sBusted [cKS, c9H] (by decide) (by decide)
    (by decide)).1

/-- C10: a non-busting `hit` changes nothing but the player hand: the result
state is exactly the old one with the single drawn card appended to the player
hand, so the dealer hand, chips, bet, phase and history all keep their
values. -/
theorem C10_hit_frame (s : GameState) (c : PlayingCard)
    (hp : s.phase = Phase.playing)
    (hv : calculateHandValue (s.playerHand ++ [c]) ≤ 21) :
    hit s c = ({ s with playerHand := s.playerHand ++ [c] }, none) ∧
    (hit s c).1.dealerHand = s.dealerHand ∧
    (hit s c).1.chips = s.chips ∧
    (hit s c).1.bet = s.bet ∧
    (hit s c).1.phase = s.phase ∧
    (hit s c).1.history = s.history := by
  rw [hit_no_bust s c hp hv]
  exact ⟨rfl, rfl, rfl, rfl, rfl, rfl⟩

/-- Witness for C10: hitting [10,9] with a 2 (21, no bust) only appends the
card. -/
theorem C10_hit_frame_witness :
    hit sTurn c2S = ({ sTurn with playerHand := [c10S, c9S, c2S] }, none) :=
  (C10_hit_frame sTurn c2S rfl (by decide)).1
